import Mathlib

/-!
Verification of the easproc SAME/EAS encoder and demodulator
(src/main.c, src/encode.c), as a shallow embedding in Lean.

Bytes are modelled as `Nat` values below 256, C character arrays as
`List Nat`, and the C `double` constants that only enter integer-valued
decisions as exact rationals built from the source's decimal literals.
-/

namespace Easproc

/-- Character allow-list from `eas_allowed` (src/main.c lines 188-205),
transcribed condition by condition: high-bit bytes are rejected, then
`data == 13 || data == 10`, then the source's literal `data >= 32 || data <= 126`. -/
def eas_allowed (data : Nat) : Bool :=
  if 128 ≤ data then false
  else if data == 13 || data == 10 then true
  else if 32 ≤ data || data ≤ 126 then true
  else false

/-- Byte-completion dispatch of `eas_demod` (src/main.c lines 423-437): once 8 bits
of a byte have been assembled while synchronized, an allowed byte is forwarded to
`process_frame_char` unchanged; a disallowed byte clears `decoder_synced` and
forwards the sentinel 0.  Returns (new sync flag, byte forwarded). -/
def byte_dispatch (synced : Bool) (kar : Nat) : Bool × Nat :=
  if eas_allowed kar then (synced, kar) else (false, 0)

/-! ## Encoder (src/encode.c) -/

/-- The source literal `3.14159265359` as an exact rational. -/
def PI_LIT : ℚ := 314159265359 / 100000000000

/-- `FREQ_MARK` (2083.3 Hz) as an exact rational. -/
def FREQ_MARK : ℚ := 20833 / 10

/-- `FREQ_SPACE` (1562.5 Hz) as an exact rational. -/
def FREQ_SPACE : ℚ := 15625 / 10

/-- `FREQ_SAMP` (22050 Hz). -/
def FREQ_SAMP : ℚ := 22050

/-- `BAUD` (520.83 symbols/sec) as an exact rational. -/
def BAUD : ℚ := 52083 / 100

/-- `CORRLEN = (int)(FREQ_SAMP/BAUD)` = 42 samples per symbol. -/
def CORRLEN : Nat := 42

/-- Per-sample phase increment of `generate_byte` (src/encode.c lines 125-128):
`2.0*3.14159265359*freq/FREQ_SAMP`, with `freq` the mark or space tone for the bit. -/
def phaseInc (bit : Bool) : ℚ :=
  2 * PI_LIT * (if bit then FREQ_MARK else FREQ_SPACE) / FREQ_SAMP

/-- The inner loop of `generate_byte` (src/encode.c lines 121-129) for one bit:
`for(f = 0, i = 0; i < CORRLEN; i++) { emit sin(f); f += phaseInc; }`.
We record the phase value `f` at which each sample is taken; the fuel argument
is the number of remaining samples and `f` the current phase. -/
def gen_bit_loop (bit : Bool) : Nat → ℚ → List ℚ
  | 0, _ => []
  | n + 1, f => f :: gen_bit_loop bit n (f + phaseInc bit)

/-- The 8 bits of a data byte in wire order, LSB first:
`bit = (data >> b) & 0x01` for `b = 0..7` (src/encode.c line 119). -/
def byteBits (data : Nat) : List Bool :=
  (List.range 8).map fun b => data.testBit b

/-- The sequence of sinusoid phases at which `generate_byte` (src/encode.c
lines 109-131) samples the tone for a whole byte: for each of the 8 bits
in wire order, the inner loop runs with `f` initialized to 0. -/
def generate_byte_phases (data : Nat) : List ℚ :=
  (byteBits data).flatMap fun bit => gen_bit_loop bit CORRLEN 0

/-- The frame buffer built by `encode` (src/encode.c lines 60-63): a 271-byte
(`268 + 2 + 1`) zeroed buffer receiving two preamble bytes 0xAB = 171 and then
`memcpy` of the whole message with no length check.  (For messages longer than
269 bytes the C `memcpy` writes past the 271-byte stack buffer; the model keeps
the copied bytes and drops the zero padding, whose `268+2+1 - (2+len)` count is
a `Nat` truncated subtraction here.) -/
def encode_full_message (msg : List Nat) : List Nat :=
  171 :: 171 :: msg ++ List.replicate (271 - (2 + msg.length)) 0

/-- The byte sequence `encode` renders per repetition (src/encode.c lines 73-79):
`for(i = 0; i < strlen(full_message); i++) generate_byte(full_message[i], ...)`;
`strlen` stops at the first NUL byte.  The result is `some` frame — the source
has no failure path for long messages (`none` would model a "message too long"
error, which does not exist in the code). -/
def encode_frame (msg : List Nat) : Option (List Nat) :=
  some ((encode_full_message msg).takeWhile fun b => b != 0)

/-! ## SymbolClock / DLL (src/main.c lines 369-403) -/

/-- `SPHASEINC = 0x10000u*BAUD/FREQ_SAMP` as an exact rational (the C macro
expands to a `double`-valued expression). -/
def SPHASEINC : ℚ := 65536 * BAUD / FREQ_SAMP

/-- The truncating cast `(unsigned int)SPHASEINC` used when advancing the
accumulator (src/main.c line 398). -/
def sphaseincN : Nat := (Rat.floor SPHASEINC).toNat

/-- The edge-triggered DLL correction (src/main.c lines 376-396).  Both gain
constants `DLL_GAIN_UNSYNC` and `DLL_GAIN_SYNC` are 1/2, so the gain choice at
lines 370-373 is immaterial and `(int)(x*dll_gain)` is the exact `x / 2`
(floor) for the unsigned values in range here; `DLL_MAX_INC = 8192`. -/
def dll_correct (edge : Bool) (sphase : Nat) : Nat :=
  if edge then
    if (sphase : ℚ) < 32768 - SPHASEINC / 8 then
      if SPHASEINC / 2 < (sphase : ℚ) then sphase - min (sphase / 2) 8192 else sphase
    else
      if (sphase : ℚ) < 65536 - SPHASEINC / 2 then
        sphase + min ((65536 - sphase) / 2) 8192
      else sphase
  else sphase

/-- One full per-sample update of the symbol-phase accumulator
(src/main.c lines 376-403): DLL correction, advance by `(unsigned)SPHASEINC`,
and reset to the residual 1 when the accumulator passes 0x10000. -/
def sphase_step (edge : Bool) (sphase : Nat) : Nat :=
  let s1 := dll_correct edge sphase
  let s2 := s1 + sphaseincN
  if 65536 ≤ s2 then 1 else s2

/-- The accumulator after a whole sequence of per-sample updates, given the
edge-detection bit of each sample. -/
def sphase_run (edges : List Bool) (sphase : Nat) : Nat :=
  edges.foldl (fun a e => sphase_step e a) sphase

/-! ## Chunked processing in `main` (src/main.c lines 139-166) -/

/-- Rolling-buffer state of `main`: `base` is the absolute stream index of
`fbuf[0]` and `cnt` is `fbuf_cnt`. -/
structure ChunkState where
  base : Nat
  cnt : Nat
deriving DecidableEq, Repr

/-- The window start positions `eas_demod(buffer, length)` visits: its loop
`for(; length >= 0; length--, buffer++)` (src/main.c line 345) runs for
`length + 1` successive window positions. -/
def demod_positions (base len : Nat) : List Nat :=
  (List.range (len + 1)).map (base + ·)

/-- One pass of `main`'s read loop for a chunk of `c` new samples
(src/main.c lines 151-165): append to `fbuf`; when `fbuf_cnt > CORRLEN`,
call `eas_demod(fbuf, fbuf_cnt-CORRLEN)`, then `memmove` the trailing
`CORRLEN` samples to the front and set `fbuf_cnt = CORRLEN`.
Returns the new state and the absolute window positions processed. -/
def chunk_step (st : ChunkState) (c : Nat) : ChunkState × List Nat :=
  let cnt1 := st.cnt + c
  if CORRLEN < cnt1 then
    (⟨st.base + (cnt1 - CORRLEN), CORRLEN⟩, demod_positions st.base (cnt1 - CORRLEN))
  else
    (⟨st.base, cnt1⟩, [])

/-- All window positions processed when the stream arrives as the given
chunk sizes, starting from an empty buffer. -/
def chunk_run (cs : List Nat) : List Nat :=
  (cs.foldl (fun p c => let r := chunk_step p.1 c; (r.1, p.2 ++ r.2)) (⟨0, 0⟩, [])).2

/-! ## FrameParser (src/main.c lines 71-331)

The protocol state machine `process_frame_char` together with its global
state.  Message slots are the 269-byte `char` arrays `msg_buf[0..2]`
(`msg_buf[3]` is declared in the source but never reached, since `msgno`
wraps at `MAX_STORE_MSG = 3`), modelled as length-269 `List Nat`s. -/

/-- The four values of `enum EAS_L2_State`. -/
inductive L2State where
  | idle
  | headerSearch
  | readingMessage
  | readingEom
deriving DecidableEq, Repr

/-- Observable decode events: the `printf` outputs of `process_frame_char`.
The texts carried are the C-string contents of the respective buffers (the
source's `printf` prepends the literal "ZCZC" to the first two). -/
inductive Event where
  | PartialMessage : List Nat → Event
  | ConfirmedAlert : List Nat → Event
  | EndOfMessage : Event
deriving DecidableEq, Repr

/-- The bytes of `HEADER_BEGIN` = "ZCZC". -/
def HEADER_BEGIN : List Nat := [90, 67, 90, 67]

/-- The bytes of `EOM` = "NNNN". -/
def EOM : List Nat := [78, 78, 78, 78]

/-- The file-scope parser state of src/main.c lines 79-86. -/
structure FP where
  frame_state : L2State
  head_buf : List Nat
  headlen : Nat
  msg_buf : List (List Nat)
  msglen : Nat
  msgno : Nat
  last_message : List Nat
deriving DecidableEq, Repr

/-- The zero-initialized C globals. -/
def initFP : FP :=
  ⟨L2State.idle, List.replicate 4 0, 0,
    [List.replicate 269 0, List.replicate 269 0, List.replicate 269 0],
    0, 0, List.replicate 269 0⟩

/-- `strncmp(a, b, n) == 0`: byte-wise comparison of at most `n` bytes that
also stops (with success) at a NUL present in both strings.  The `[]` cases
cannot arise for the NUL-terminated buffers of the source. -/
def strncmpEq : List Nat → List Nat → Nat → Bool
  | _, _, 0 => true
  | [], [], _ + 1 => true
  | [], _ :: _, _ + 1 => false
  | _ :: _, [], _ + 1 => false
  | a :: as, b :: bs, n + 1 => a == b && (a == 0 || strncmpEq as bs n)

/-- The C-string content of a buffer: its bytes before the first NUL. -/
def cstr (l : List Nat) : List Nat := l.takeWhile fun b => b != 0

/-- The byte count of the flush-path `memset(&msg_buf[msgno][msglen], 0,
MAX_MSG_LEN - msglen)` (src/main.c line 253).  `MAX_MSG_LEN - msglen` is
converted to the unsigned `size_t`, so for `msglen = 269` (reachable through
the off-by-one at line 242) it underflows to `2^64 - 1`. -/
def memset_count (msglen : Nat) : Nat :=
  (((268 : Int) - msglen) % (2 : Int) ^ 64).toNat

/-- The flush-path `memset`: zero the slot's bytes from index `msglen` for
`memset_count msglen` bytes (clipped to the slot — the C call past the array
is the undefined behavior exposed by `memset_count`). -/
def padSlot (slot : List Nat) (msglen : Nat) : List Nat :=
  slot.take msglen ++
    List.replicate (min (memset_count msglen) (slot.length - msglen)) 0 ++
    slot.drop (msglen + memset_count msglen)

/-- Index of the last occurrence of `v` in a list, if any. -/
def lastIdxOf (v : Nat) : List Nat → Option Nat
  | [] => none
  | b :: rest =>
    match lastIdxOf v rest with
    | some i => some (i + 1)
    | none => if b = v then some 0 else none

/-- The trailing-'-' trim of src/main.c lines 260-265: `strrchr` scans the
slot's C string for the last '-' (byte 45) and, when found, the byte after it
is set to NUL. -/
def trimSlot (slot : List Nat) : List Nat :=
  match lastIdxOf 45 (cstr slot) with
  | some i => slot.set (i + 1) 0
  | none => slot

/-- `strncpy(last_message, src, MAX_MSG_LEN)` (src/main.c line 304): copy the
source's C string, NUL-padded, into the first 268 bytes; byte 268 of the
destination is untouched. -/
def strncpy268 (dst src : List Nat) : List Nat :=
  (cstr src).take 268 ++ List.replicate (268 - (cstr src).length) 0 ++ dst.drop 268

/-- The 2-of-3 agreement scan of src/main.c lines 290-313, unrolled over the
pairs (0,1), (0,2), (1,2) in source order: an empty slot is skipped at the
outer level, the first `strncmp`-agreeing pair raises the alert with a copy of
`msg_buf[j]`, and scanning then stops.  Returns the index `j` copied. -/
def vote (bufs : List (List Nat)) : Option Nat :=
  if ((bufs.getD 0 []).getD 0 0 != 0) && strncmpEq (bufs.getD 0 []) (bufs.getD 1 []) 268 then
    some 1
  else if ((bufs.getD 0 []).getD 0 0 != 0) && strncmpEq (bufs.getD 0 []) (bufs.getD 2 []) 268 then
    some 2
  else if ((bufs.getD 1 []).getD 0 0 != 0) && strncmpEq (bufs.getD 1 []) (bufs.getD 2 []) 268 then
    some 2
  else
    none

/-- The message slots as seen by the voting check during a READING_MESSAGE
flush: the current slot has been `memset`-padded and '-'-trimmed. -/
def voteSlots (s : FP) : List (List Nat) :=
  s.msg_buf.set s.msgno (trimSlot (padSlot (s.msg_buf.getD s.msgno []) s.msglen))

/-- `process_frame_char` (src/main.c lines 207-331), transcribed branch by
branch; returns the new state and the events printed, in order. -/
def process_frame_char (s : FP) (data : Nat) : FP × List Event :=
  if data ≠ 0 then
    let fs1 := if s.frame_state = L2State.idle then L2State.headerSearch else s.frame_state
    let hb := if fs1 = L2State.headerSearch ∧ s.headlen < 4 then
        s.head_buf.set s.headlen data else s.head_buf
    let hl := if fs1 = L2State.headerSearch ∧ s.headlen < 4 then
        s.headlen + 1 else s.headlen
    if fs1 = L2State.headerSearch ∧ 4 ≤ hl then
      if strncmpEq hb HEADER_BEGIN hl then
        ({ s with frame_state := L2State.readingMessage, head_buf := hb, headlen := hl }, [])
      else if strncmpEq hb EOM hl then
        ({ s with frame_state := L2State.readingEom, head_buf := hb, headlen := hl }, [])
      else
        ({ s with frame_state := L2State.idle, head_buf := hb, headlen := 0 }, [])
    else if fs1 = L2State.readingMessage ∧ s.msglen ≤ 268 then
      let mb := s.msg_buf.set s.msgno ((s.msg_buf.getD s.msgno []).set s.msglen data)
      (FP.mk fs1 hb hl mb (s.msglen + 1) s.msgno s.last_message, [])
    else
      ({ s with frame_state := fs1, head_buf := hb, headlen := hl }, [])
  else
    if s.frame_state = L2State.readingMessage then
      let buf1 := voteSlots s
      let newno := if 3 ≤ s.msgno + 1 then 0 else s.msgno + 1
      let ptext := cstr (buf1.getD s.msgno [])
      if ((buf1.getD 0 []).getD 0 0 != 0) && ((buf1.getD 1 []).getD 0 0 != 0) &&
          ((buf1.getD 2 []).getD 0 0 != 0) then
        match vote buf1 with
        | some j =>
          let lm := strncpy268 s.last_message (buf1.getD j [])
          (FP.mk L2State.idle s.head_buf 0 buf1 0 newno lm,
           [Event.PartialMessage ptext, Event.ConfirmedAlert (cstr lm)])
        | none =>
          (FP.mk L2State.idle s.head_buf 0 buf1 0 newno s.last_message,
           [Event.PartialMessage ptext])
      else
        (FP.mk L2State.idle s.head_buf 0 buf1 0 newno s.last_message,
         [Event.PartialMessage ptext])
    else if s.frame_state = L2State.readingEom then
      let buf1 := (s.msg_buf.set s.msgno (padSlot (s.msg_buf.getD s.msgno []) s.msglen)).map
        fun sl => sl.set 0 0
      (FP.mk L2State.idle s.head_buf 0 buf1 0 0 s.last_message, [Event.EndOfMessage])
    else
      let buf1 := s.msg_buf.set s.msgno (padSlot (s.msg_buf.getD s.msgno []) s.msglen)
      (FP.mk L2State.idle s.head_buf 0 buf1 0 s.msgno s.last_message, [])

/-- Drive a whole byte sequence through the FrameParser, collecting events. -/
def runFP : FP → List Nat → FP × List Event
  | s, [] => (s, [])
  | s, b :: bs =>
    let r := process_frame_char s b
    let rest := runFP r.1 bs
    (rest.1, r.2 ++ rest.2)

/-- A byte sequence of three well-formed message frames ("ZCZC" + "A-" /
"B-" / "C-", each flushed), leaving all three slots non-empty, `msgno = 0`
and the parser IDLE. -/
def threeFrames : List Nat :=
  [90, 67, 90, 67, 65, 45, 0] ++ [90, 67, 90, 67, 66, 45, 0] ++
    [90, 67, 90, 67, 67, 45, 0]

/-- A message slot holding exactly 268 content bytes ('A' = 65) plus the
terminator position. -/
def slot268 : List Nat := List.replicate 268 65 ++ [0]

/-- The parser state while reading a message whose 268th content byte has
just been stored (reached from `initFP` by feeding "ZCZC" and then 268
bytes 'A'). -/
def s268 : FP :=
  ⟨L2State.readingMessage, [90, 67, 90, 67], 4,
    [slot268, List.replicate 269 0, List.replicate 269 0], 268, 0,
    List.replicate 269 0⟩

/-- Well-formed message slot: NUL-free content of at most 268 bytes followed
by a NUL and zero padding to the full 269 bytes.  This is the shape of every
slot the parser builds through in-range stores and flush padding. -/
def wfSlot (sl : List Nat) : Prop :=
  ∃ m : List Nat, m.length ≤ 268 ∧ (∀ x ∈ m, x ≠ 0) ∧
    sl = m ++ 0 :: List.replicate (268 - m.length) 0

/-- A well-formed slot holding "X-". -/
def wslotA : List Nat := [88, 45] ++ 0 :: List.replicate 266 0

/-- A well-formed slot holding "Y-". -/
def wslotC : List Nat := [89, 45] ++ 0 :: List.replicate 266 0

/-- A parser state in READING_MESSAGE whose completed flush will vote over
slots ("X-", "X-", "Y-"): slots 0 and 1 agree, the current slot 2 differs. -/
def sVote : FP :=
  ⟨L2State.readingMessage, [90, 67, 90, 67], 4, [wslotA, wslotA, wslotC], 2, 2,
    List.replicate 269 0⟩

/-- A parser state in READING_EOM about to process the flush of an "NNNN"
frame, with stale non-empty slots. -/
def sEom : FP :=
  ⟨L2State.readingEom, [78, 78, 78, 78], 4, [wslotA, wslotA, wslotA], 0, 0,
    List.replicate 269 0⟩

/-- True when slot `i` of the slot array is non-empty, i.e. its first byte is
not NUL — the test `msg_buf[i][0] == '\0'` of src/main.c lines 280 and 294. -/
def slotNonempty (bufs : List (List Nat)) (i : Nat) : Bool :=
  (bufs.getD i []).getD 0 0 != 0

/-- Slots contributing to the voting-progress measure: non-empty slots, not
counting the slot currently being written while in READING_MESSAGE (its bytes
are stored before the frame completes). -/
def countedSlot (s : FP) (i : Nat) : Bool :=
  slotNonempty s.msg_buf i &&
    !(decide (s.frame_state = L2State.readingMessage ∧ s.msgno = i))

/-- Number of counted slots (an upper bound for which is maintained by the
number of completed message frames). -/
def Ncount (s : FP) : Nat :=
  (if countedSlot s 0 then 1 else 0) + (if countedSlot s 1 then 1 else 0) +
    (if countedSlot s 2 then 1 else 0)

/-- Partial-message (completed-frame) event test. -/
def isPartial : Event → Bool
  | Event.PartialMessage _ => true
  | _ => false

/-- Number of completed message frames reported in an event list. -/
def partialCount (evs : List Event) : Nat := (evs.filter isPartial).length

/-- Scans an event list carrying the number `k` of partial-message events
seen so far; true iff every `ConfirmedAlert` is preceded by at least three
completed message frames. -/
def alertsGated : Nat → List Event → Bool
  | _, [] => true
  | k, Event.PartialMessage _ :: rest => alertsGated (k + 1) rest
  | k, Event.ConfirmedAlert _ :: rest => decide (3 ≤ k) && alertsGated k rest
  | k, Event.EndOfMessage :: rest => alertsGated k rest

end Easproc

namespace Easproc

/-- C4: evaluation of the code at the failing input.  The source's
`data >= 32 || data <= 126` (an `||` where the allow-list needs `&&`)
accepts the control character 0x01, which is then forwarded to the
frame parser with synchronization kept; in fact every 7-bit byte passes. -/
theorem allowed_control_chars :
    eas_allowed 1 = true ∧ byte_dispatch true 1 = (true, 1) ∧
    ∀ d, d < 128 → eas_allowed d = true := by
  refine ⟨by decide, by decide, ?_⟩
  decide

/-! ## Encoder phase schedule (C5) -/

theorem gen_bit_loop_length (bit : Bool) :
    ∀ (n : Nat) (f : ℚ), (gen_bit_loop bit n f).length = n := by
  intro n
  induction n with
  | zero => intro f; rfl
  | succ m ih => intro f; simp [gen_bit_loop, ih]

theorem gen_bit_loop_getElem (bit : Bool) :
    ∀ (n i : Nat) (f : ℚ), i < n →
      (gen_bit_loop bit n f)[i]? = some (f + i * phaseInc bit) := by
  intro n
  induction n with
  | zero => intro i f h; omega
  | succ m ih =>
    intro i f h
    cases i with
    | zero => simp [gen_bit_loop]
    | succ k =>
      have hk : k < m := by omega
      simp only [gen_bit_loop, List.getElem?_cons_succ, ih k (f + phaseInc bit) hk]
      congr 1
      push_cast
      ring

theorem flat_chunk_getElem :
    ∀ (bs : List Bool) (b i : Nat), b < bs.length → i < CORRLEN →
      (bs.flatMap fun bit => gen_bit_loop bit CORRLEN 0)[CORRLEN * b + i]? =
        some ((i : ℚ) * phaseInc (bs.getD b false)) := by
  intro bs
  induction bs with
  | nil => intro b i hb _; simp at hb
  | cons x rest ih =>
    intro b i hb hi
    cases b with
    | zero =>
      have hlen : (gen_bit_loop x CORRLEN 0).length = CORRLEN := gen_bit_loop_length x CORRLEN 0
      have hidx : CORRLEN * 0 + i = i := by ring
      rw [List.flatMap_cons, hidx, List.getElem?_append, hlen]
      simp only [if_pos hi, gen_bit_loop_getElem x CORRLEN i 0 hi]
      simp
    | succ b1 =>
      have hlen : (gen_bit_loop x CORRLEN 0).length = CORRLEN := gen_bit_loop_length x CORRLEN 0
      have hge : (gen_bit_loop x CORRLEN 0).length ≤ CORRLEN * (b1 + 1) + i := by
        rw [hlen]; have : CORRLEN * 1 ≤ CORRLEN * (b1 + 1) := by
          exact Nat.mul_le_mul_left _ (by omega)
        omega
      rw [List.flatMap_cons, List.getElem?_append_right hge, hlen]
      have hsub : CORRLEN * (b1 + 1) + i - CORRLEN = CORRLEN * b1 + i := by
        have : CORRLEN * (b1 + 1) = CORRLEN * b1 + CORRLEN := by ring
        omega
      rw [hsub, ih b1 i (by simpa using hb) hi]
      rfl

/-- C5 counterexample: in `generate_byte` the phase at the first sample of
bit 1 is NOT the phase after the last sample of bit 0 plus one increment —
the inner loop restarts with `f = 0` at every bit boundary (byte 0xFF, whose
bits are all mark). -/
theorem phase_reset_counterexample :
    ((generate_byte_phases 255)[41]?.map fun x => x + phaseInc true) ≠
      (generate_byte_phases 255)[42]? := by
  have hbits : byteBits 255 = [true, true, true, true, true, true, true, true] := by decide
  have h41 : (generate_byte_phases 255)[41]? = some ((41 : ℚ) * phaseInc true) := by
    have := flat_chunk_getElem (byteBits 255) 0 41 (by rw [hbits]; decide) (by decide)
    simpa [generate_byte_phases, hbits] using this
  have h42 : (generate_byte_phases 255)[42]? = some ((0 : ℚ) * phaseInc true) := by
    have := flat_chunk_getElem (byteBits 255) 1 0 (by rw [hbits]; decide) (by decide)
    simpa [generate_byte_phases, hbits, CORRLEN] using this
  rw [h41, h42]
  intro hcontra
  have heq : (41 : ℚ) * phaseInc true + phaseInc true = 0 * phaseInc true := by
    simpa using hcontra
  have hpos : (0 : ℚ) < phaseInc true := by
    norm_num [phaseInc, PI_LIT, FREQ_MARK, FREQ_SAMP]
  nlinarith

/-- C5 amended: inside each bit the phase accumulates continuously, one
increment `2π·freq/sampleRate` per sample starting from 0, but it is reset
to 0 at every bit boundary (the inner loop of `generate_byte` reinitializes
`f = 0` per bit); sample `i` of bit `b` is taken at phase `i * phaseInc`. -/
theorem phase_reset_per_bit (d b i : Nat) (hb : b < 8) (hi : i < CORRLEN) :
    (generate_byte_phases d)[CORRLEN * b + i]? =
      some ((i : ℚ) * phaseInc (d.testBit b)) := by
  have hlen : (byteBits d).length = 8 := by simp [byteBits]
  have hget : (byteBits d).getD b false = d.testBit b := by
    simp [byteBits, List.getD_eq_getElem?_getD, List.getElem?_map,
      List.getElem?_range hb]
  rw [generate_byte_phases, flat_chunk_getElem (byteBits d) b i (by omega) hi, hget]

theorem phase_reset_per_bit_witness :
    1 < 8 ∧ 0 < CORRLEN ∧
      (generate_byte_phases 255)[CORRLEN * 1 + 0]? =
        some ((0 : ℚ) * phaseInc ((255 : Nat).testBit 1)) :=
  ⟨by norm_num, by norm_num [CORRLEN], phase_reset_per_bit 255 1 0 (by norm_num)
    (by norm_num [CORRLEN])⟩

/-! ## Chunk carry-over (C6) -/

theorem demod_positions_head (b L : Nat) :
    (demod_positions b L).head? = some b := by
  simp [demod_positions, List.range_succ_eq_map, List.head?_map]

theorem demod_positions_getLast (b L : Nat) :
    (demod_positions b L).getLast? = some (b + L) := by
  simp [demod_positions, List.range_succ, List.getLast?_append]

/-- C6 counterexample: feeding the same 100-sample stream as two 50-sample
chunks processes window position 8 twice (it is both the last window of the
first `eas_demod` call and, after the `CORRLEN`-sample carry-over, the first
window of the second call), whereas the unsplit stream processes it once; and
the rolling buffer retains `CORRLEN` = 42 trailing samples, not 41. -/
theorem chunk_overlap_counterexample :
    (chunk_run [50, 50]).count 8 = 2 ∧ (chunk_run [100]).count 8 = 1 ∧
    chunk_run [50, 50] ≠ chunk_run [100] ∧
    (chunk_step ⟨0, 0⟩ 50).1.cnt = 42 := by decide

/-- C6 amended: whenever a chunk triggers an `eas_demod` call, `main` retains
`CORRLEN` (42 = symbolLength, not symbolLength−1) trailing samples, and because
`eas_demod(buffer, length)` visits `length+1` window positions, the last window
position of the call equals the new buffer base — i.e. exactly the window at
which the next call will start, so that boundary window is discriminated twice
and chunked processing is not equivalent to processing the unsplit stream. -/
theorem chunk_overlap (st : ChunkState) (c : Nat) (h : CORRLEN < st.cnt + c) :
    (chunk_step st c).1.cnt = CORRLEN ∧
    (chunk_step st c).2.getLast? = some (chunk_step st c).1.base ∧
    (chunk_step st c).2.head? = some st.base := by
  have hstep : chunk_step st c =
      (⟨st.base + (st.cnt + c - CORRLEN), CORRLEN⟩,
        demod_positions st.base (st.cnt + c - CORRLEN)) := by
    simp [chunk_step, if_pos h]
  rw [hstep]
  refine ⟨rfl, ?_, ?_⟩
  · exact demod_positions_getLast _ _
  · exact demod_positions_head _ _

theorem chunk_overlap_witness :
    CORRLEN < 0 + 50 ∧
      ((chunk_step ⟨0, 0⟩ 50).1.cnt = CORRLEN ∧
       (chunk_step ⟨0, 0⟩ 50).2.getLast? = some (chunk_step ⟨0, 0⟩ 50).1.base ∧
       (chunk_step ⟨0, 0⟩ 50).2.head? = some 0) :=
  ⟨by decide, chunk_overlap ⟨0, 0⟩ 50 (by decide)⟩

/-! ## Encoder length misuse (C8) -/

set_option maxRecDepth 8192 in
/-- C8 counterexample: for a 269-byte message (269 > 268) `encode` does not
fail — there is no length check anywhere in src/encode.c — and the rendered
frame contains the two preamble bytes followed by the entire message. -/
theorem encode_no_length_check :
    encode_frame (List.replicate 269 65) ≠ none ∧
    encode_frame (List.replicate 269 65) =
      some (171 :: 171 :: List.replicate 269 65) := by
  constructor
  · simp [encode_frame]
  · decide

/-- C8 amended: `encode` performs no length validation: any NUL-free message,
however long, is copied whole into the frame after the two preamble bytes and
rendered (for messages of more than 269 bytes the C `memcpy` additionally
overflows the 271-byte stack buffer); no "message too long" failure exists. -/
theorem encode_copies_long_message (msg : List Nat) (hlen : 268 < msg.length)
    (hnz : ∀ b ∈ msg, b ≠ 0) :
    encode_frame msg = some (171 :: 171 :: msg) := by
  have hpad : 271 - (2 + msg.length) = 0 := by omega
  simp only [encode_frame, encode_full_message, hpad, List.replicate_zero,
    List.append_nil, Option.some_inj]
  rw [List.takeWhile_eq_self_iff]
  intro x hx
  simp only [List.mem_cons] at hx
  rcases hx with h | h | h
  · simp [h]
  · simp [h]
  · have := hnz x h
    simpa using this

set_option maxRecDepth 8192 in
theorem encode_copies_long_message_witness :
    268 < (List.replicate 269 65).length ∧
      encode_frame (List.replicate 269 65) = some (171 :: 171 :: List.replicate 269 65) :=
  ⟨by decide, encode_copies_long_message (List.replicate 269 65) (by decide)
    (by decide)⟩

/-! ## Symbol-phase accumulator bounds (C9) -/

theorem sphaseinc_q_pos : (0 : ℚ) < SPHASEINC := by
  norm_num [SPHASEINC, BAUD, FREQ_SAMP]

theorem dll_correct_bounds (e : Bool) (s : Nat) (hs : s ≤ 65535) :
    dll_correct e s ≤ 65535 ∧ dll_correct e s ≤ s + 8192 ∧
      s ≤ dll_correct e s + 8192 := by
  cases e with
  | false => simp [dll_correct]; omega
  | true =>
    simp only [dll_correct, if_true]
    split_ifs with h1 h2 h3
    · have hmin1 : min (s / 2) 8192 ≤ s / 2 := Nat.min_le_left _ _
      have hmin2 : min (s / 2) 8192 ≤ 8192 := Nat.min_le_right _ _
      omega
    · omega
    · have hp : (0 : ℚ) < SPHASEINC := sphaseinc_q_pos
      have hlt : (s : ℚ) < 65536 := by linarith
      have hlt2 : s < 65536 := by exact_mod_cast hlt
      have hmin1 : min ((65536 - s) / 2) 8192 ≤ (65536 - s) / 2 := Nat.min_le_left _ _
      have hmin2 : min ((65536 - s) / 2) 8192 ≤ 8192 := Nat.min_le_right _ _
      omega
    · omega

theorem sphase_step_le (e : Bool) (s : Nat) (hs : s ≤ 65535) :
    sphase_step e s ≤ 65535 := by
  have h1 := (dll_correct_bounds e s hs).1
  simp only [sphase_step]
  split_ifs with h
  · omega
  · omega

theorem sphase_run_le :
    ∀ (edges : List Bool) (s : Nat), s ≤ 65535 → sphase_run edges s ≤ 65535 := by
  intro edges
  induction edges with
  | nil => intro s hs; simpa [sphase_run] using hs
  | cons e rest ih =>
    intro s hs
    have hstep := sphase_step_le e s hs
    simpa [sphase_run] using ih (sphase_step e s) hstep

/-- C9: the symbol-phase accumulator stays within [0, 65535] (it is a `Nat`,
so the lower bound is inherent) after the DLL correction sub-step and after
every complete per-sample update, for every sequence of samples' edge bits,
and each single-sample DLL correction shifts it by at most `DLL_MAX_INC` =
8192 in either direction. -/
theorem sphase_bound (s : Nat) (hs : s ≤ 65535) :
    (∀ e, dll_correct e s ≤ 65535 ∧ dll_correct e s ≤ s + 8192 ∧
      s ≤ dll_correct e s + 8192 ∧ sphase_step e s ≤ 65535) ∧
    ∀ edges, sphase_run edges s ≤ 65535 := by
  refine ⟨fun e => ?_, fun edges => sphase_run_le edges s hs⟩
  obtain ⟨h1, h2, h3⟩ := dll_correct_bounds e s hs
  exact ⟨h1, h2, h3, sphase_step_le e s hs⟩

theorem sphase_bound_witness :
    (0 : Nat) ≤ 65535 ∧ sphase_run [true, false, true] 0 ≤ 65535 :=
  ⟨by decide, (sphase_bound 0 (by decide)).2 [true, false, true]⟩

/-! ## Message-slot bound (C3) -/

set_option maxRecDepth 16384 in
/-- C3: evaluation of the code at the failing input.  After "ZCZC" the parser
is READING_MESSAGE, and in the state `s268` reached by 268 stored content
bytes, the guard `msglen <= MAX_MSG_LEN` at src/main.c line 242 still accepts
a 269th content byte: it is stored at `msg_buf[msgno][268]` — the slot's
terminator position — and `msglen` becomes 269, after which the flush-path
`memset` byte count `MAX_MSG_LEN - msglen` underflows to `2^64 - 1`
(a massive out-of-bounds write in the C program). -/
theorem message_slot_overflow :
    (runFP initFP [90, 67, 90, 67]).1.frame_state = L2State.readingMessage ∧
    (process_frame_char s268 66).1.msglen = 269 ∧
    ((process_frame_char s268 66).1.msg_buf.getD 0 []).getD 268 0 = 66 ∧
    memset_count 269 = 2 ^ 64 - 1 := by decide

/-! ## Flush while idle or searching (C7) -/

set_option maxRecDepth 16384 in
/-- C7 counterexample: after three completed message frames the parser is
IDLE with `msgno` wrapped to 0 and slot 0 non-empty; a flush sentinel
received in that state emits no event but CHANGES the message slots — the
unconditional `memset` at src/main.c line 253 zero-fills the current slot —
contradicting the claim that slot contents are unchanged. -/
theorem flush_idle_clears_slot :
    (runFP initFP threeFrames).1.frame_state = L2State.idle ∧
    (process_frame_char (runFP initFP threeFrames).1 0).2 = [] ∧
    (process_frame_char (runFP initFP threeFrames).1 0).1.msg_buf ≠
      (runFP initFP threeFrames).1.msg_buf := by decide

/-- C7 amended: a flush received in IDLE or HEADER_SEARCH emits no event,
resets the header and message length counters to 0 and returns to IDLE, and
leaves every slot other than the current one unchanged — but it zero-fills
bytes `msglen..267` of the current slot `msg_buf[msgno]` (the unconditional
`memset` at src/main.c line 253), so with `msglen = 0` the current slot's
first 268 bytes are cleared rather than preserved. -/
theorem flush_idle_effect (s : FP)
    (h : s.frame_state = L2State.idle ∨ s.frame_state = L2State.headerSearch) :
    (process_frame_char s 0).1.frame_state = L2State.idle ∧
    (process_frame_char s 0).1.msglen = 0 ∧
    (process_frame_char s 0).1.headlen = 0 ∧
    (process_frame_char s 0).2 = [] ∧
    (process_frame_char s 0).1.msg_buf =
      s.msg_buf.set s.msgno (padSlot (s.msg_buf.getD s.msgno []) s.msglen) ∧
    (∀ i, i ≠ s.msgno →
      (process_frame_char s 0).1.msg_buf.getD i [] = s.msg_buf.getD i []) ∧
    (s.msglen = 0 → s.msgno < s.msg_buf.length →
      (s.msg_buf.getD s.msgno []).length = 269 →
      (process_frame_char s 0).1.msg_buf.getD s.msgno [] =
        List.replicate 268 0 ++ [(s.msg_buf.getD s.msgno []).getD 268 0]) := by
  have hpf : process_frame_char s 0 =
      (FP.mk L2State.idle s.head_buf 0
        (s.msg_buf.set s.msgno (padSlot (s.msg_buf.getD s.msgno []) s.msglen)) 0
        s.msgno s.last_message, []) := by
    rcases h with h | h <;> simp [process_frame_char, h]
  rw [hpf]
  refine ⟨rfl, rfl, rfl, rfl, rfl, ?_, ?_⟩
  · intro i hi
    simp [List.getD_eq_getElem?_getD, List.getElem?_set_ne (fun hc => hi hc.symm)]
  · intro h0 hno hlen
    have hms : memset_count 0 = 268 := by decide
    set sl := s.msg_buf.getD s.msgno [] with hsl
    have h268 : 268 < sl.length := by omega
    have hdrop : sl.drop 268 = [sl.getD 268 0] := by
      rw [List.drop_eq_getElem_cons h268, List.drop_eq_nil_of_le (by omega)]
      congr 1
      rw [List.getD_eq_getElem?_getD, List.getElem?_eq_getElem h268]
      rfl
    have hpad : padSlot sl s.msglen = List.replicate 268 0 ++ [sl.getD 268 0] := by
      rw [h0]
      simp only [padSlot, hms, hlen, List.take_zero, Nat.zero_add, hdrop,
        List.nil_append]
      norm_num
    rw [hpad, List.getD_eq_getElem?_getD, List.getElem?_set_self hno]
    rfl

/-! ## Comparison of well-formed slots (toward C2) -/

theorem cstr_canon (m t : List Nat) (hm : ∀ x ∈ m, x ≠ 0) :
    cstr (m ++ 0 :: t) = m := by
  induction m with
  | nil => simp [cstr]
  | cons a rest ih =>
    have ha : a ≠ 0 := hm a (List.mem_cons_self a rest)
    have hrest : ∀ x ∈ rest, x ≠ 0 := fun x hx => hm x (List.mem_cons_of_mem a hx)
    simp only [List.cons_append, cstr, List.takeWhile_cons]
    have hba : (a != 0) = true := by simpa using ha
    rw [hba]
    simpa [cstr] using ih hrest

theorem strncmp_canon :
    ∀ (n : Nat) (m1 m2 t1 t2 : List Nat), (∀ x ∈ m1, x ≠ 0) → (∀ x ∈ m2, x ≠ 0) →
      m1.length ≤ n → m2.length ≤ n →
      (strncmpEq (m1 ++ 0 :: t1) (m2 ++ 0 :: t2) n = true ↔ m1 = m2) := by
  intro n
  induction n with
  | zero =>
    intro m1 m2 t1 t2 _ _ hl1 hl2
    have h1 : m1 = [] := List.eq_nil_of_length_eq_zero (by omega)
    have h2 : m2 = [] := List.eq_nil_of_length_eq_zero (by omega)
    subst h1; subst h2
    simp [strncmpEq]
  | succ k ih =>
    intro m1 m2 t1 t2 hz1 hz2 hl1 hl2
    cases m1 with
    | nil =>
      cases m2 with
      | nil => simp [strncmpEq]
      | cons y m2r =>
        have hy : y ≠ 0 := hz2 y (List.mem_cons_self y m2r)
        simp [strncmpEq, Ne.symm hy]
    | cons x m1r =>
      have hx : x ≠ 0 := hz1 x (List.mem_cons_self x m1r)
      cases m2 with
      | nil => simp [strncmpEq, hx]
      | cons y m2r =>
        have hih := ih m1r m2r t1 t2
          (fun a hm => hz1 a (List.mem_cons_of_mem x hm))
          (fun a hm => hz2 a (List.mem_cons_of_mem y hm))
          (by simp at hl1; omega) (by simp at hl2; omega)
        simp [strncmpEq, hx, hih]

theorem wf_strncmp_iff (a b : List Nat) (ha : wfSlot a) (hb : wfSlot b) :
    (strncmpEq a b 268 = true ↔ a = b) := by
  obtain ⟨m1, hl1, hz1, rfl⟩ := ha
  obtain ⟨m2, hl2, hz2, rfl⟩ := hb
  rw [strncmp_canon 268 m1 m2 _ _ hz1 hz2 hl1 hl2]
  constructor
  · rintro rfl; rfl
  · intro h
    have := congrArg cstr h
    rwa [cstr_canon m1 _ hz1, cstr_canon m2 _ hz2] at this

theorem wf_strncmp_ne (a b : List Nat) (ha : wfSlot a) (hb : wfSlot b)
    (h : a ≠ b) : strncmpEq a b 268 = false := by
  rcases Bool.eq_false_or_eq_true (strncmpEq a b 268) with h0 | h1
  · exact absurd ((wf_strncmp_iff a b ha hb).mp h0) h
  · exact h1

theorem drop268_of_eq269 (dst : List Nat) (hl : dst.length = 269)
    (h268 : dst.getD 268 0 = 0) : dst.drop 268 = [0] := by
  have h : 268 < dst.length := by omega
  rw [List.drop_eq_getElem_cons h, List.drop_eq_nil_of_le (by omega)]
  have : dst[268] = dst.getD 268 0 := by
    rw [List.getD_eq_getElem?_getD, List.getElem?_eq_getElem h]
    rfl
  rw [this, h268]

theorem cstr_strncpy (dst src : List Nat) (hl : dst.length = 269)
    (h268 : dst.getD 268 0 = 0) (hs : wfSlot src) :
    cstr (strncpy268 dst src) = cstr src := by
  obtain ⟨m, hml, hmz, rfl⟩ := hs
  rw [cstr_canon m _ hmz, strncpy268, cstr_canon m _ hmz]
  have htake : m.take 268 = m := List.take_of_length_le hml
  rw [htake, drop268_of_eq269 dst hl h268]
  have hrep : List.replicate (268 - m.length) 0 ++ [0] =
      0 :: List.replicate (268 - m.length) 0 := by
    rw [← List.replicate_succ' (268 - m.length) 0, List.replicate_succ]
  rw [List.append_assoc, hrep]
  exact cstr_canon m _ hmz

theorem pfc_flush_some (s : FP) (hst : s.frame_state = L2State.readingMessage)
    (h0 : ((voteSlots s).getD 0 []).getD 0 0 ≠ 0)
    (h1 : ((voteSlots s).getD 1 []).getD 0 0 ≠ 0)
    (h2 : ((voteSlots s).getD 2 []).getD 0 0 ≠ 0)
    (j : Nat) (hv : vote (voteSlots s) = some j) :
    (process_frame_char s 0).2 =
      [Event.PartialMessage (cstr ((voteSlots s).getD s.msgno [])),
       Event.ConfirmedAlert
         (cstr (strncpy268 s.last_message ((voteSlots s).getD j [])))] := by
  have hb0 : (((voteSlots s).getD 0 []).getD 0 0 != 0) = true := by simpa using h0
  have hb1 : (((voteSlots s).getD 1 []).getD 0 0 != 0) = true := by simpa using h1
  have hb2 : (((voteSlots s).getD 2 []).getD 0 0 != 0) = true := by simpa using h2
  have h00 : ¬((0 : Nat) ≠ 0) := by simp
  simp only [process_frame_char]
  rw [if_neg h00, if_pos hst, hb0, hb1, hb2, hv]
  rfl

theorem pfc_flush_none (s : FP) (hst : s.frame_state = L2State.readingMessage)
    (h0 : ((voteSlots s).getD 0 []).getD 0 0 ≠ 0)
    (h1 : ((voteSlots s).getD 1 []).getD 0 0 ≠ 0)
    (h2 : ((voteSlots s).getD 2 []).getD 0 0 ≠ 0)
    (hv : vote (voteSlots s) = none) :
    (process_frame_char s 0).2 =
      [Event.PartialMessage (cstr ((voteSlots s).getD s.msgno []))] := by
  have hb0 : (((voteSlots s).getD 0 []).getD 0 0 != 0) = true := by simpa using h0
  have hb1 : (((voteSlots s).getD 1 []).getD 0 0 != 0) = true := by simpa using h1
  have hb2 : (((voteSlots s).getD 2 []).getD 0 0 != 0) = true := by simpa using h2
  have h00 : ¬((0 : Nat) ≠ 0) := by simp
  simp only [process_frame_char]
  rw [if_neg h00, if_pos hst, hb0, hb1, hb2, hv]
  rfl

/-- C2: voting correctness of the READING_MESSAGE flush.  When the flush
completes with all 3 slots non-empty and well-formed, if exactly two slots
(`i < j`) are byte-identical and the third differs from them, exactly one
`ConfirmedAlert` is emitted (after the frame's `PartialMessage`), with the
content of the matching pair; the scan stops at the first agreeing pair.
If all three slots differ pairwise, no `ConfirmedAlert` is emitted.
Slot conditions are stated on `voteSlots s`, the slots as seen by the voting
check (the current slot padded and trimmed). -/
theorem voting_correctness (s : FP)
    (hst : s.frame_state = L2State.readingMessage)
    (hlm : s.last_message.length = 269) (hlm268 : s.last_message.getD 268 0 = 0)
    (hwf : ∀ i, i < 3 → wfSlot ((voteSlots s).getD i []))
    (hne : ∀ i, i < 3 → ((voteSlots s).getD i []).getD 0 0 ≠ 0) :
    (∀ i j, i < j → j < 3 →
      (voteSlots s).getD i [] = (voteSlots s).getD j [] →
      (∀ m, m < 3 → m ≠ i → m ≠ j →
        (voteSlots s).getD m [] ≠ (voteSlots s).getD i []) →
      (process_frame_char s 0).2 =
        [Event.PartialMessage (cstr ((voteSlots s).getD s.msgno [])),
         Event.ConfirmedAlert (cstr ((voteSlots s).getD j []))]) ∧
    ((∀ i j, i < j → j < 3 →
      (voteSlots s).getD i [] ≠ (voteSlots s).getD j []) →
      (process_frame_char s 0).2 =
        [Event.PartialMessage (cstr ((voteSlots s).getD s.msgno []))]) := by
  have hn0 := hne 0 (by omega)
  have hn1 := hne 1 (by omega)
  have hn2 := hne 2 (by omega)
  have hb0 : (((voteSlots s).getD 0 []).getD 0 0 != 0) = true := by simpa using hn0
  have hb1 : (((voteSlots s).getD 1 []).getD 0 0 != 0) = true := by simpa using hn1
  have hwf0 := hwf 0 (by omega)
  have hwf1 := hwf 1 (by omega)
  have hwf2 := hwf 2 (by omega)
  constructor
  · intro i j hij hj3 heq hdiff
    interval_cases j
    · omega
    · interval_cases i
      have hs01 : strncmpEq ((voteSlots s).getD 0 []) ((voteSlots s).getD 1 []) 268
          = true := (wf_strncmp_iff _ _ hwf0 hwf1).mpr heq
      have hv : vote (voteSlots s) = some 1 := by
        simp only [vote, hb0, hs01]
        rfl
      rw [pfc_flush_some s hst hn0 hn1 hn2 1 hv,
        cstr_strncpy s.last_message _ hlm hlm268 hwf1]
    · interval_cases i
      · have hd1 : (voteSlots s).getD 1 [] ≠ (voteSlots s).getD 0 [] :=
          hdiff 1 (by omega) (by omega) (by omega)
        have hs01 : strncmpEq ((voteSlots s).getD 0 []) ((voteSlots s).getD 1 []) 268
            = false := wf_strncmp_ne _ _ hwf0 hwf1 (Ne.symm hd1)
        have hs02 : strncmpEq ((voteSlots s).getD 0 []) ((voteSlots s).getD 2 []) 268
            = true := (wf_strncmp_iff _ _ hwf0 hwf2).mpr heq
        have hv : vote (voteSlots s) = some 2 := by
          simp only [vote, hb0, hs01, hs02]
          rfl
        rw [pfc_flush_some s hst hn0 hn1 hn2 2 hv,
          cstr_strncpy s.last_message _ hlm hlm268 hwf2]
      · have hd0 : (voteSlots s).getD 0 [] ≠ (voteSlots s).getD 1 [] :=
          hdiff 0 (by omega) (by omega) (by omega)
        have hd02 : (voteSlots s).getD 0 [] ≠ (voteSlots s).getD 2 [] := by
          rw [← heq]; exact hd0
        have hs01 : strncmpEq ((voteSlots s).getD 0 []) ((voteSlots s).getD 1 []) 268
            = false := wf_strncmp_ne _ _ hwf0 hwf1 hd0
        have hs02 : strncmpEq ((voteSlots s).getD 0 []) ((voteSlots s).getD 2 []) 268
            = false := wf_strncmp_ne _ _ hwf0 hwf2 hd02
        have hs12 : strncmpEq ((voteSlots s).getD 1 []) ((voteSlots s).getD 2 []) 268
            = true := (wf_strncmp_iff _ _ hwf1 hwf2).mpr heq
        have hv : vote (voteSlots s) = some 2 := by
          simp only [vote, hb0, hb1, hs01, hs02, hs12]
          rfl
        rw [pfc_flush_some s hst hn0 hn1 hn2 2 hv,
          cstr_strncpy s.last_message _ hlm hlm268 hwf2]
  · intro hdiff
    have hs01 : strncmpEq ((voteSlots s).getD 0 []) ((voteSlots s).getD 1 []) 268
        = false := wf_strncmp_ne _ _ hwf0 hwf1 (hdiff 0 1 (by omega) (by omega))
    have hs02 : strncmpEq ((voteSlots s).getD 0 []) ((voteSlots s).getD 2 []) 268
        = false := wf_strncmp_ne _ _ hwf0 hwf2 (hdiff 0 2 (by omega) (by omega))
    have hs12 : strncmpEq ((voteSlots s).getD 1 []) ((voteSlots s).getD 2 []) 268
        = false := wf_strncmp_ne _ _ hwf1 hwf2 (hdiff 1 2 (by omega) (by omega))
    have hv : vote (voteSlots s) = none := by
      simp only [vote, hs01, hs02, hs12, Bool.and_false]
      rfl
    exact pfc_flush_none s hst hn0 hn1 hn2 hv

/-! ## Voting progress after an EOM (toward C10) -/

theorem partialCount_nil : partialCount [] = 0 := rfl

theorem partialCount_cons_p (t : List Nat) (l : List Event) :
    partialCount (Event.PartialMessage t :: l) = partialCount l + 1 := by
  simp [partialCount, isPartial, List.filter]

theorem partialCount_cons_a (t : List Nat) (l : List Event) :
    partialCount (Event.ConfirmedAlert t :: l) = partialCount l := by
  simp [partialCount, isPartial, List.filter]

theorem partialCount_cons_e (l : List Event) :
    partialCount (Event.EndOfMessage :: l) = partialCount l := by
  simp [partialCount, isPartial, List.filter]

theorem alertsGated_append :
    ∀ (l1 l2 : List Event) (k : Nat),
      alertsGated k (l1 ++ l2) =
        (alertsGated k l1 && alertsGated (k + partialCount l1) l2) := by
  intro l1
  induction l1 with
  | nil => intro l2 k; simp [alertsGated, partialCount_nil]
  | cons e rest ih =>
    intro l2 k
    cases e with
    | PartialMessage t =>
      have h1 : k + 1 + partialCount rest = k + (partialCount rest + 1) := by omega
      simp only [List.cons_append, alertsGated, List.append_eq, ih,
        partialCount_cons_p, h1]
    | ConfirmedAlert t =>
      simp only [List.cons_append, alertsGated, List.append_eq, ih,
        partialCount_cons_a, Bool.and_assoc]
    | EndOfMessage =>
      simp only [List.cons_append, alertsGated, List.append_eq, ih,
        partialCount_cons_e]

set_option maxRecDepth 16384 in
theorem flush_idle_effect_witness :
    (initFP.frame_state = L2State.idle ∨ initFP.frame_state = L2State.headerSearch) ∧
    (process_frame_char initFP 0).2 = [] ∧
    (process_frame_char initFP 0).1.msg_buf.getD 0 [] =
      List.replicate 268 0 ++ [(initFP.msg_buf.getD 0 []).getD 268 0] :=
  ⟨Or.inl rfl, (flush_idle_effect initFP (Or.inl rfl)).2.2.2.1,
    (flush_idle_effect initFP (Or.inl rfl)).2.2.2.2.2.2 rfl (by decide) (by decide)⟩

end Easproc

namespace Easproc

theorem ite_one_le (a b : Bool) (h : a = true → b = true) :
    (if a then (1 : Nat) else 0) ≤ if b then 1 else 0 := by
  cases a
  · simp
  · simp [h rfl]

theorem Ncount_le_of_imp (s1 s2 : FP)
    (h : ∀ i, countedSlot s1 i = true → countedSlot s2 i = true) :
    Ncount s1 ≤ Ncount s2 := by
  unfold Ncount
  have g0 := ite_one_le _ _ (h 0)
  have g1 := ite_one_le _ _ (h 1)
  have g2 := ite_one_le _ _ (h 2)
  omega

theorem countedSlot_eq_true_iff (s : FP) (i : Nat) :
    countedSlot s i = true ↔
      slotNonempty s.msg_buf i = true ∧
        ¬(s.frame_state = L2State.readingMessage ∧ s.msgno = i) := by
  simp only [countedSlot, Bool.and_eq_true, Bool.not_eq_true',
    decide_eq_false_iff_not]

theorem countedSlot_mono (s1 s2 : FP) (i : Nat)
    (hbuf : s1.msg_buf = s2.msg_buf) (hmn : s1.msgno = s2.msgno)
    (hkeep : s2.frame_state = L2State.readingMessage →
      s1.frame_state = L2State.readingMessage) :
    countedSlot s1 i = true → countedSlot s2 i = true := by
  intro h
  rw [countedSlot_eq_true_iff] at h ⊢
  obtain ⟨hne, hexc⟩ := h
  refine ⟨by rw [← hbuf]; exact hne, ?_⟩
  rintro ⟨hf, hm⟩
  exact hexc ⟨hkeep hf, hmn.trans hm⟩

theorem countedSlot_store (s : FP) (y hb2 : List Nat) (hl2 ml2 : Nat)
    (lm2 : List Nat) (i : Nat) :
    countedSlot
      (FP.mk L2State.readingMessage hb2 hl2 (s.msg_buf.set s.msgno y) ml2
        s.msgno lm2) i = true →
    countedSlot s i = true := by
  intro h
  rw [countedSlot_eq_true_iff] at h ⊢
  obtain ⟨hne, hexc⟩ := h
  have hmi : s.msgno ≠ i := by
    intro hmi
    exact hexc ⟨rfl, hmi⟩
  have hgd : (s.msg_buf.set s.msgno y).getD i [] = s.msg_buf.getD i [] := by
    rw [List.getD_eq_getElem?_getD, List.getD_eq_getElem?_getD,
      List.getElem?_set_ne hmi]
  refine ⟨?_, ?_⟩
  · unfold slotNonempty at hne ⊢
    rw [← hgd]
    exact hne
  · rintro ⟨_, hm⟩
    exact hmi hm

theorem pfc_data_inv (s : FP) (b k : Nat) (hb : b ≠ 0) (h3 : s.msg_buf.length = 3)
    (hno : s.msgno < 3) (hN : Ncount s ≤ k) :
    (process_frame_char s b).1.msg_buf.length = 3 ∧
    (process_frame_char s b).1.msgno < 3 ∧
    Ncount (process_frame_char s b).1 ≤ k ∧
    (process_frame_char s b).2 = [] := by
  rcases hfs : s.frame_state
  case idle =>
    simp only [process_frame_char, if_pos hb, hfs, reduceCtorEq, eq_self_iff_true,
      true_and, false_and, if_false, if_true]
    split_ifs <;>
      (refine ⟨h3, hno, le_trans (Ncount_le_of_imp _ s fun i =>
          countedSlot_mono _ s i rfl rfl fun hrd => ?_) hN, rfl⟩
       first
         | rfl
         | exact absurd (hfs.symm.trans hrd) (by decide))
  case headerSearch =>
    simp only [process_frame_char, if_pos hb, hfs, reduceCtorEq, eq_self_iff_true,
      true_and, false_and, if_false, if_true]
    split_ifs <;>
      (refine ⟨h3, hno, le_trans (Ncount_le_of_imp _ s fun i =>
          countedSlot_mono _ s i rfl rfl fun hrd => ?_) hN, rfl⟩
       first
         | rfl
         | exact absurd (hfs.symm.trans hrd) (by decide))
  case readingEom =>
    simp only [process_frame_char, if_pos hb, hfs, reduceCtorEq, eq_self_iff_true,
      true_and, false_and, if_false, if_true]
    refine ⟨h3, hno, le_trans (Ncount_le_of_imp _ s fun i =>
        countedSlot_mono _ s i rfl rfl fun hrd => ?_) hN, trivial⟩
    exact absurd (hfs.symm.trans hrd) (by decide)
  case readingMessage =>
    simp only [process_frame_char, if_pos hb, hfs, reduceCtorEq, eq_self_iff_true,
      true_and, false_and, if_false, if_true]
    split_ifs <;>
      first
        | (refine ⟨by simpa using h3, hno, le_trans (Ncount_le_of_imp _ s fun i =>
              countedSlot_store s _ _ _ _ _ i) hN, rfl⟩)
        | (refine ⟨h3, hno, le_trans (Ncount_le_of_imp _ s fun i =>
              countedSlot_mono _ s i rfl rfl fun hrd => ?_) hN, rfl⟩
           first
             | rfl
             | exact absurd (hfs.symm.trans hrd) (by decide))

end Easproc

namespace Easproc

theorem padSlot_nonempty (slot : List Nat) (ml : Nat)
    (h : (padSlot slot ml).getD 0 0 ≠ 0) : slot.getD 0 0 ≠ 0 := by
  rcases slot with _ | ⟨x, rest⟩
  · simp [padSlot] at h
  · rcases ml with _ | ml2
    · exfalso
      apply h
      have hm : memset_count 0 = 268 := by decide
      simp only [padSlot, hm, List.take_zero, List.nil_append, Nat.zero_add,
        List.length_cons, Nat.sub_zero]
      rcases hmin : min 268 (rest.length + 1) with _ | m
      · omega
      · rw [List.replicate_succ]
        rfl
    · simpa [padSlot] using h

theorem slotNonempty_iff (bufs : List (List Nat)) (i : Nat) :
    slotNonempty bufs i = true ↔ (bufs.getD i []).getD 0 0 ≠ 0 := by
  unfold slotNonempty
  simp

theorem slotNonempty_set_self (bufs : List (List Nat)) (mn : Nat) (y : List Nat)
    (hr : mn < bufs.length) :
    slotNonempty (bufs.set mn y) mn = true ↔ y.getD 0 0 ≠ 0 := by
  unfold slotNonempty
  rw [List.getD_eq_getElem?_getD (bufs.set mn y) mn [],
    List.getElem?_set_self hr]
  simp

theorem slotNonempty_set_ne (bufs : List (List Nat)) (mn i : Nat) (y : List Nat)
    (hi : mn ≠ i) :
    slotNonempty (bufs.set mn y) i = slotNonempty bufs i := by
  unfold slotNonempty
  rw [List.getD_eq_getElem?_getD (bufs.set mn y) i [],
    List.getElem?_set_ne hi, ← List.getD_eq_getElem?_getD]

theorem countedSlot_pad (s : FP) (fs2 : L2State) (hb2 : List Nat) (hl2 ml2 : Nat)
    (lm2 : List Nat) (i : Nat) (hold : s.frame_state ≠ L2State.readingMessage)
    (hr : s.msgno < s.msg_buf.length) :
    countedSlot (FP.mk fs2 hb2 hl2
      (s.msg_buf.set s.msgno (padSlot (s.msg_buf.getD s.msgno []) s.msglen)) ml2
      s.msgno lm2) i = true →
    countedSlot s i = true := by
  intro h
  rw [countedSlot_eq_true_iff] at h ⊢
  obtain ⟨hne, _⟩ := h
  refine ⟨?_, fun hc => hold hc.1⟩
  by_cases hi : s.msgno = i
  · subst hi
    have hne2 : slotNonempty
        (s.msg_buf.set s.msgno (padSlot (s.msg_buf.getD s.msgno []) s.msglen))
        s.msgno = true := hne
    have hp := (slotNonempty_set_self _ _ _ hr).mp hne2
    exact (slotNonempty_iff _ _).mpr (padSlot_nonempty _ _ hp)
  · have hne2 : slotNonempty
        (s.msg_buf.set s.msgno (padSlot (s.msg_buf.getD s.msgno []) s.msglen))
        i = true := hne
    rw [slotNonempty_set_ne _ _ _ _ hi] at hne2
    exact hne2

theorem countedSlot_vote (s : FP) (fs2 : L2State) (hb2 : List Nat)
    (hl2 ml2 mn2 : Nat) (lm2 y : List Nat) (i : Nat) (hi : i ≠ s.msgno) :
    countedSlot (FP.mk fs2 hb2 hl2 (s.msg_buf.set s.msgno y) ml2 mn2 lm2) i =
      true →
    countedSlot s i = true := by
  intro h
  rw [countedSlot_eq_true_iff] at h ⊢
  obtain ⟨hne, _⟩ := h
  constructor
  · have hne2 : slotNonempty (s.msg_buf.set s.msgno y) i = true := hne
    rw [slotNonempty_set_ne _ _ _ _ (fun hc => hi hc.symm)] at hne2
    exact hne2
  · rintro ⟨_, hm⟩
    exact hi hm.symm

theorem Ncount_le_succ_of_imp (s1 s2 : FP) (j : Nat)
    (h : ∀ i, i ≠ j → countedSlot s1 i = true → countedSlot s2 i = true) :
    Ncount s1 ≤ Ncount s2 + 1 := by
  have b0 : (if countedSlot s1 0 then (1 : Nat) else 0) ≤ 1 := by
    split_ifs <;> omega
  have b1 : (if countedSlot s1 1 then (1 : Nat) else 0) ≤ 1 := by
    split_ifs <;> omega
  have b2 : (if countedSlot s1 2 then (1 : Nat) else 0) ≤ 1 := by
    split_ifs <;> omega
  unfold Ncount
  by_cases h0 : (0 : Nat) = j
  · have g1 := ite_one_le _ _ (h 1 (by omega))
    have g2 := ite_one_le _ _ (h 2 (by omega))
    omega
  · by_cases h1 : (1 : Nat) = j
    · have g0 := ite_one_le _ _ (h 0 (by omega))
      have g2 := ite_one_le _ _ (h 2 (by omega))
      omega
    · by_cases h2 : (2 : Nat) = j
      · have g0 := ite_one_le _ _ (h 0 (by omega))
        have g1 := ite_one_le _ _ (h 1 (by omega))
        omega
      · have g0 := ite_one_le _ _ (h 0 (by omega))
        have g1 := ite_one_le _ _ (h 1 (by omega))
        have g2 := ite_one_le _ _ (h 2 (by omega))
        omega

theorem Ncount_ge_two (s : FP) (hno : s.msgno < 3)
    (h : ∀ i, i < 3 → i ≠ s.msgno → countedSlot s i = true) :
    2 ≤ Ncount s := by
  unfold Ncount
  by_cases h0 : s.msgno = 0
  · have c1 := h 1 (by omega) (by omega)
    have c2 := h 2 (by omega) (by omega)
    simp [c1, c2]
  · by_cases h1 : s.msgno = 1
    · have c0 := h 0 (by omega) (by omega)
      have c2 := h 2 (by omega) (by omega)
      simp [c0, c2]
    · have c0 := h 0 (by omega) (by omega)
      have c1 := h 1 (by omega) (by omega)
      simp [c0, c1]

end Easproc

namespace Easproc

theorem slotNonempty_clear (bufs : List (List Nat)) (i : Nat) :
    slotNonempty (bufs.map fun sl => sl.set 0 0) i = false := by
  unfold slotNonempty
  rw [List.getD_eq_getElem?_getD (bufs.map fun sl => sl.set 0 0) i [],
    List.getElem?_map]
  rcases hbi : bufs[i]? with _ | sl
  · simp
  · rcases sl with _ | ⟨x, rest⟩ <;> simp [List.set]

theorem pcP (t : List Nat) : partialCount [Event.PartialMessage t] = 1 := by
  simp [partialCount, isPartial, List.filter]

theorem pcPA (t u : List Nat) :
    partialCount [Event.PartialMessage t, Event.ConfirmedAlert u] = 1 := by
  simp [partialCount, isPartial, List.filter]

theorem pfc_flush_inv (s : FP) (k : Nat) (h3 : s.msg_buf.length = 3)
    (hno : s.msgno < 3) (hN : Ncount s ≤ k) :
    (process_frame_char s 0).1.msg_buf.length = 3 ∧
    (process_frame_char s 0).1.msgno < 3 ∧
    Ncount (process_frame_char s 0).1 ≤
      k + partialCount (process_frame_char s 0).2 ∧
    alertsGated k (process_frame_char s 0).2 = true := by
  have h00 : ¬((0 : Nat) ≠ 0) := by simp
  have hr : s.msgno < s.msg_buf.length := by omega
  rcases hfs : s.frame_state
  case idle =>
    simp only [process_frame_char, if_neg h00, hfs, reduceCtorEq, if_false,
      if_true, eq_self_iff_true, partialCount_nil, Nat.add_zero]
    refine ⟨by simp [h3], hno, ?_, rfl⟩
    exact le_trans (Ncount_le_of_imp _ s fun i =>
      countedSlot_pad s _ _ _ _ _ i (by simp [hfs]) hr) hN
  case headerSearch =>
    simp only [process_frame_char, if_neg h00, hfs, reduceCtorEq, if_false,
      if_true, eq_self_iff_true, partialCount_nil, Nat.add_zero]
    refine ⟨by simp [h3], hno, ?_, rfl⟩
    exact le_trans (Ncount_le_of_imp _ s fun i =>
      countedSlot_pad s _ _ _ _ _ i (by simp [hfs]) hr) hN
  case readingEom =>
    simp only [process_frame_char, if_neg h00, hfs, reduceCtorEq, if_false,
      if_true, eq_self_iff_true]
    refine ⟨by simp [h3], by omega, ?_, rfl⟩
    have hc : ∀ i, countedSlot (FP.mk L2State.idle s.head_buf 0
        ((s.msg_buf.set s.msgno
          (padSlot (s.msg_buf.getD s.msgno []) s.msglen)).map fun sl =>
            sl.set 0 0) 0 0 s.last_message) i = false := by
      intro i
      unfold countedSlot
      rw [slotNonempty_clear]
      rfl
    simp only [Ncount, hc]
    simp
  case readingMessage =>
    rcases hv : vote (s.msg_buf.set s.msgno
        (trimSlot (padSlot (s.msg_buf.getD s.msgno []) s.msglen))) with _ | j <;>
      simp only [process_frame_char, voteSlots, if_neg h00, hfs, reduceCtorEq,
        if_false, if_true, eq_self_iff_true, hv] <;>
      split_ifs with hcomp hn1 hn2 <;>
      simp only [pcP, pcPA] <;>
      refine ⟨by simp [h3], by omega, le_trans (Ncount_le_succ_of_imp _ s s.msgno
        (fun i hi => countedSlot_vote s _ _ _ _ _ _ _ i hi)) (by omega), ?_⟩ <;>
      first
        | rfl
        | (simp only [Bool.and_eq_true] at hcomp
           obtain ⟨⟨hc0, hc1⟩, hc2⟩ := hcomp
           have hslot : ∀ i, i < 3 → i ≠ s.msgno → countedSlot s i = true := by
             intro i h3i hi
             rw [countedSlot_eq_true_iff]
             refine ⟨?_, fun hc => hi hc.2.symm⟩
             have hgd : slotNonempty (s.msg_buf.set s.msgno
                 (trimSlot (padSlot (s.msg_buf.getD s.msgno []) s.msglen))) i =
                 slotNonempty s.msg_buf i :=
               slotNonempty_set_ne _ _ _ _ (fun hc => hi hc.symm)
             rw [← hgd]
             interval_cases i
             · exact hc0
             · exact hc1
             · exact hc2
           have hk2 : 2 ≤ k := le_trans (Ncount_ge_two s hno hslot) hN
           simp only [alertsGated, Bool.and_true]
           exact decide_eq_true_iff.mpr (by omega))

end Easproc

namespace Easproc

theorem pfc_step_inv (s : FP) (b k : Nat) (h3 : s.msg_buf.length = 3)
    (hno : s.msgno < 3) (hN : Ncount s ≤ k) :
    (process_frame_char s b).1.msg_buf.length = 3 ∧
    (process_frame_char s b).1.msgno < 3 ∧
    Ncount (process_frame_char s b).1 ≤
      k + partialCount (process_frame_char s b).2 ∧
    alertsGated k (process_frame_char s b).2 = true := by
  by_cases hb : b = 0
  · subst hb
    exact pfc_flush_inv s k h3 hno hN
  · obtain ⟨h1, h2, h3b, h4⟩ := pfc_data_inv s b k hb h3 hno hN
    refine ⟨h1, h2, ?_, ?_⟩
    · rw [h4, partialCount_nil, Nat.add_zero]
      exact h3b
    · rw [h4]
      rfl

theorem runFP_gated :
    ∀ (bs : List Nat) (s : FP) (k : Nat), s.msg_buf.length = 3 → s.msgno < 3 →
      Ncount s ≤ k → alertsGated k (runFP s bs).2 = true := by
  intro bs
  induction bs with
  | nil => intro s k _ _ _; rfl
  | cons b rest ih =>
    intro s k h3 hno hN
    obtain ⟨h1, h2, h3b, h4⟩ := pfc_step_inv s b k h3 hno hN
    show alertsGated k ((process_frame_char s b).2 ++
      (runFP (process_frame_char s b).1 rest).2) = true
    rw [alertsGated_append, h4, Bool.true_and]
    exact ih (process_frame_char s b).1
      (k + partialCount (process_frame_char s b).2) h1 h2 h3b

/-- C10: after an EndOfMessage flush (flush received while READING_EOM) the
slot index `msgno` is 0 and every message slot is marked empty (first byte
NUL), and from that state — in fact from any state whose slots are all
marked empty — every `ConfirmedAlert` the FrameParser ever emits on any
further byte stream is preceded by at least three PartialMessage events,
i.e. three message frames completed by a flush. -/
theorem eom_resets_voting (s : FP) (h3 : s.msg_buf.length = 3)
    (hno : s.msgno < 3) (hst : s.frame_state = L2State.readingEom) :
    (process_frame_char s 0).1.msgno = 0 ∧
    (∀ i, i < 3 →
      ((process_frame_char s 0).1.msg_buf.getD i []).getD 0 0 = 0) ∧
    ∀ bs, alertsGated 0 (runFP (process_frame_char s 0).1 bs).2 = true := by
  have h00 : ¬((0 : Nat) ≠ 0) := by simp
  have hshape : process_frame_char s 0 =
      (FP.mk L2State.idle s.head_buf 0
        ((s.msg_buf.set s.msgno
          (padSlot (s.msg_buf.getD s.msgno []) s.msglen)).map
          fun sl => sl.set 0 0) 0 0 s.last_message, [Event.EndOfMessage]) := by
    simp only [process_frame_char, if_neg h00, hst, reduceCtorEq, if_false,
      if_true, eq_self_iff_true]
  rw [hshape]
  have hc : ∀ i, countedSlot (FP.mk L2State.idle s.head_buf 0
      ((s.msg_buf.set s.msgno
        (padSlot (s.msg_buf.getD s.msgno []) s.msglen)).map
        fun sl => sl.set 0 0) 0 0 s.last_message) i = false := by
    intro i
    unfold countedSlot
    rw [slotNonempty_clear]
    rfl
  refine ⟨rfl, ?_, ?_⟩
  · intro i hi
    have hclear := slotNonempty_clear
      (s.msg_buf.set s.msgno (padSlot (s.msg_buf.getD s.msgno []) s.msglen)) i
    unfold slotNonempty at hclear
    simpa using hclear
  · intro bs
    apply runFP_gated bs _ 0
    · simp [h3]
    · simp
    · simp only [Ncount, hc]
      simp

end Easproc

namespace Easproc

set_option maxRecDepth 16384 in
theorem eom_resets_voting_witness :
    sEom.frame_state = L2State.readingEom ∧
    (process_frame_char sEom 0).1.msgno = 0 ∧
    alertsGated 0 (runFP (process_frame_char sEom 0).1 threeFrames).2 = true :=
  ⟨rfl, (eom_resets_voting sEom (by decide) (by decide) rfl).1,
    (eom_resets_voting sEom (by decide) (by decide) rfl).2.2 threeFrames⟩

set_option maxRecDepth 16384 in
theorem voting_correctness_witness :
    (process_frame_char sVote 0).2 =
      [Event.PartialMessage (cstr ((voteSlots sVote).getD sVote.msgno [])),
       Event.ConfirmedAlert (cstr ((voteSlots sVote).getD 1 []))] := by
  refine (voting_correctness sVote rfl (by decide) (by decide) ?_ ?_).1 0 1
    (by decide) (by decide) (by decide) ?_
  · intro i hi
    interval_cases i
    · exact ⟨[88, 45], by decide, by decide, by decide⟩
    · exact ⟨[88, 45], by decide, by decide, by decide⟩
    · exact ⟨[89, 45], by decide, by decide, by decide⟩
  · intro i hi
    interval_cases i <;> decide
  · intro m hm h0 h1
    interval_cases m
    · omega
    · omega
    · decide

end Easproc
